import Mathlib

/-!
Verification of the crawl-and-extract pipeline of `src/index.mjs`
(`fikryfahrezy/crawl-crawl`): a shallow embedding of the frontier loop, the
pagination-link canonicalization, the batcher, the detail fetcher, the
all-settled extraction merge and the rate-limiter middleware, together with
theorems settling the spec's claims about them.
-/

namespace CrawlCrawl

/-! ## JSON values

`extractProduct` returns `JSON.parse(completion.choices[0].message.content)`,
so a fulfilled extraction promise carries an arbitrary JSON value.  Numbers
are modelled as integers; no claim depends on numeric precision. -/

inductive Json where
  | null
  | bool (b : Bool)
  | num (n : Int)
  | str (s : String)
  | arr (elems : List Json)
  | obj (fields : List (String × Json))

/-- JavaScript `typeof v` for a JSON value: `typeof null`, `typeof []` and
`typeof {}` are all `"object"`. -/
def jsTypeof : Json → String
  | .null => "object"
  | .bool _ => "boolean"
  | .num _ => "number"
  | .str _ => "string"
  | .arr _ => "object"
  | .obj _ => "object"

/-- JavaScript `k in v`.  On an object it tests key presence (`fields` comes
from `JSON.parse`, so keys are unique and there is no prototype chain to
consult); on an array the key queried here, `"products"`, is not an index
property, so the test is `false`; on every other JSON value — including
`null` — the `in` operator throws a `TypeError`, modelled as `.error ()`. -/
def jsIn (k : String) : Json → Except Unit Bool
  | .obj fields => .ok ((fields.find? (fun f => f.1 == k)).isSome)
  | .arr _ => .ok false
  | _ => .error ()

/-- JavaScript property access `v.k` for an object (`undefined` on a missing
key is collapsed to `null`; in `crawlAndExtract` the access is guarded by
`"products" in v`, so the key is present whenever the value is used). -/
def jsGet (k : String) : Json → Json
  | .obj fields =>
    match fields.find? (fun f => f.1 == k) with
    | some f => f.2
    | none => .null
  | _ => .null

/-- JavaScript `Array.isArray`. -/
def isJsArray : Json → Bool
  | .arr _ => true
  | _ => false

/-- The element list of a JSON array (`[]` otherwise; only read under an
`Array.isArray` guard). -/
def jsArrElems : Json → List Json
  | .arr elems => elems
  | _ => []

/-! ## Extraction Dispatcher (lines 298–311)

`Promise.allSettled` hands the merge loop one settled outcome per batch, in
batch submission order. -/

/-- One settled outcome of an `extractProduct` call: `rejected`, or
`fulfilled` with the parsed JSON value. -/
inductive Settled where
  | rejected
  | fulfilled (value : Json)

/-- The merge loop over `await Promise.allSettled(extractProductPromises)`:
rejected outcomes are skipped; a fulfilled outcome is appended when
`typeof value === "object" && "products" in value && Array.isArray(value.products)`.
Evaluating `"products" in value` on `null` throws a `TypeError`
(`typeof null` is `"object"`, so the guard does not protect it), which
escapes `crawlAndExtract`; the error aborts the whole merge, modelled by
`Except`. -/
def mergeSettled : List Settled → Except Unit (List Json)
  | [] => .ok []
  | .rejected :: rest => mergeSettled rest
  | .fulfilled v :: rest =>
    if jsTypeof v = "object" then
      match jsIn "products" v with
      | .error e => .error e
      | .ok true =>
        if isJsArray (jsGet "products" v) then
          match mergeSettled rest with
          | .error e => .error e
          | .ok tail => .ok (jsArrElems (jsGet "products" v) ++ tail)
        else mergeSettled rest
      | .ok false => mergeSettled rest
    else mergeSettled rest

/-- Modelled from the spec's words, for comparison with `mergeSettled`: the
contribution of one settled call per the claim — a fulfilled call whose
result is an object containing an array `products` field contributes that
array, every other outcome contributes zero records. -/
def specProductsOf : Settled → List Json
  | .rejected => []
  | .fulfilled (.obj fields) =>
    match fields.find? (fun f => f.1 == "products") with
    | some (_, .arr ps) => ps
    | _ => []
  | .fulfilled _ => []

/-- Modelled from the spec's words: the aggregate output the claim demands —
the concatenation, in batch submission order, of the fulfilled calls'
`products` arrays. -/
def specAggregate : List Settled → List Json
  | [] => []
  | r :: rest => specProductsOf r ++ specAggregate rest

theorem specAggregate_append (a b : List Settled) :
    specAggregate (a ++ b) = specAggregate a ++ specAggregate b := by
  induction a with
  | nil => simp [specAggregate]
  | cons r rest ih => simp [specAggregate, ih]

theorem mergeSettled_ok_of_no_null (rs : List Settled)
    (h : ∀ v, Settled.fulfilled v ∈ rs → v ≠ Json.null) :
    mergeSettled rs = .ok (specAggregate rs) := by
  induction rs with
  | nil => rfl
  | cons r rest ih =>
    have hrest : ∀ v, Settled.fulfilled v ∈ rest → v ≠ Json.null := by
      intro v hv
      exact h v (List.mem_cons_of_mem _ hv)
    cases r with
    | rejected => simpa [mergeSettled, specAggregate, specProductsOf] using ih hrest
    | fulfilled v =>
      cases v with
      | null => exact absurd rfl (h Json.null (List.mem_cons_self _ _))
      | bool b => simpa [mergeSettled, jsTypeof, specAggregate, specProductsOf] using ih hrest
      | num n => simpa [mergeSettled, jsTypeof, specAggregate, specProductsOf] using ih hrest
      | str s => simpa [mergeSettled, jsTypeof, specAggregate, specProductsOf] using ih hrest
      | arr elems =>
        simpa [mergeSettled, jsTypeof, jsIn, specAggregate, specProductsOf] using ih hrest
      | obj fields =>
        cases hfind : fields.find? (fun f => f.1 == "products") with
        | none =>
          simp [mergeSettled, jsTypeof, jsIn, hfind, specAggregate, specProductsOf, ih hrest]
        | some f =>
          obtain ⟨k, fv⟩ := f
          cases fv with
          | arr ps =>
            simp [mergeSettled, jsTypeof, jsIn, hfind, jsGet, isJsArray, jsArrElems,
              specAggregate, specProductsOf, ih hrest]
          | null =>
            simp [mergeSettled, jsTypeof, jsIn, hfind, jsGet, isJsArray, specAggregate,
              specProductsOf, ih hrest]
          | bool b =>
            simp [mergeSettled, jsTypeof, jsIn, hfind, jsGet, isJsArray, specAggregate,
              specProductsOf, ih hrest]
          | num n =>
            simp [mergeSettled, jsTypeof, jsIn, hfind, jsGet, isJsArray, specAggregate,
              specProductsOf, ih hrest]
          | str s =>
            simp [mergeSettled, jsTypeof, jsIn, hfind, jsGet, isJsArray, specAggregate,
              specProductsOf, ih hrest]
          | obj g =>
            simp [mergeSettled, jsTypeof, jsIn, hfind, jsGet, isJsArray, specAggregate,
              specProductsOf, ih hrest]

/-- C1, counterexample: a batch call that fulfills with the JSON value
`null` does not contribute zero records as the claim states — the merge
loop's `"products" in extractedResult.value` throws a `TypeError` on `null`
(`typeof null === "object"` passes the guard), so `crawlAndExtract` aborts
instead of returning the concatenation of the remaining batches. -/
theorem mergeSettled_null_cex :
    mergeSettled [Settled.fulfilled Json.null] = .error () ∧
      mergeSettled [Settled.fulfilled Json.null]
        ≠ .ok (specAggregate [Settled.fulfilled Json.null]) := by
  constructor
  · rfl
  · intro hcontra
    simp [mergeSettled, jsTypeof, jsIn] at hcontra

/-- C1, amended: provided no batch call fulfills with the JSON value `null`,
the aggregate output of the merge loop equals the concatenation, in batch
submission order, of the `products` arrays of the fulfilled calls whose
result is an object with an array `products` field; rejected calls and
fulfilled calls without such a field contribute zero records, and in
particular when one batch rejects the output is the concatenation of the
remaining batches' records in submission order. -/
theorem mergeSettled_eq_specAggregate (rs : List Settled)
    (h : ∀ v, Settled.fulfilled v ∈ rs → v ≠ Json.null) :
    mergeSettled rs = .ok (specAggregate rs) ∧
      ∀ a b, rs = a ++ Settled.rejected :: b →
        mergeSettled rs = .ok (specAggregate a ++ specAggregate b) := by
  refine ⟨mergeSettled_ok_of_no_null rs h, ?_⟩
  intro a b hab
  rw [mergeSettled_ok_of_no_null rs h, hab, specAggregate_append]
  simp [specAggregate, specProductsOf]

/-- C1, witness: three batches — one fulfilled with a `products` array, one
rejected, one fulfilled with an empty object — merge to exactly the first
batch's records. -/
theorem mergeSettled_eq_specAggregate_witness :
    mergeSettled
        [Settled.fulfilled (Json.obj [("products", Json.arr [Json.str "p1", Json.str "p2"])]),
          Settled.rejected,
          Settled.fulfilled (Json.obj [("ok", Json.bool true)])]
      = .ok (specAggregate
          [Settled.fulfilled (Json.obj [("products", Json.arr [Json.str "p1", Json.str "p2"])]),
            Settled.rejected,
            Settled.fulfilled (Json.obj [("ok", Json.bool true)])]) :=
  (mergeSettled_eq_specAggregate _ (by intro v hv hnull; subst hnull; simp at hv)).1

/-! ## Item stubs and the batcher (lines 110–140, 184–228)

`getProductItems` builds one `ProductItem` per listing entry with
`productDetailHtml: ""`; the detail loop later overwrites that field with
the `string[]` returned by `getProductDescription`, so the field holds
either a string or an array of strings. -/

/-- The value of a stub's `productDetailHtml` field: the string `""` set by
`getProductItems`, or the `string[]` assigned by the detail loop. -/
inductive DetailHtml where
  | str (s : String)
  | arr (regions : List String)
deriving DecidableEq, Repr

/-- An item stub harvested from a listing page (`ProductItem` in the
source). -/
structure ProductItem where
  productId : String
  detailLink : String
  productItemHtml : String
  productDetailHtml : DetailHtml
deriving DecidableEq, Repr

/-- `itemsPerBatch = 5` (line 189). -/
def itemsPerBatch : Nat := 5

/-- The batching loop (lines 218–220):
`for (let i = 0; i < productItems.length; i += itemsPerBatch)
   bathces.push(productItems.slice(i, i + itemsPerBatch))`
— successive slices of at most `itemsPerBatch = 5` items. -/
def chunksOfFive : List α → List (List α)
  | [] => []
  | [x1] => [[x1]]
  | [x1, x2] => [[x1, x2]]
  | [x1, x2, x3] => [[x1, x2, x3]]
  | [x1, x2, x3, x4] => [[x1, x2, x3, x4]]
  | x1 :: x2 :: x3 :: x4 :: x5 :: rest => [x1, x2, x3, x4, x5] :: chunksOfFive rest

theorem chunksOfFive_props (xs : List ProductItem) :
    (chunksOfFive xs).flatten = xs ∧
      ∀ b ∈ chunksOfFive xs, b ≠ [] ∧ b.length ≤ itemsPerBatch := by
  induction xs using chunksOfFive.induct with
  | case1 => simp [chunksOfFive]
  | case2 x1 => simp [chunksOfFive, itemsPerBatch]
  | case3 x1 x2 => simp [chunksOfFive, itemsPerBatch]
  | case4 x1 x2 x3 => simp [chunksOfFive, itemsPerBatch]
  | case5 x1 x2 x3 x4 => simp [chunksOfFive, itemsPerBatch]
  | case6 x1 x2 x3 x4 x5 rest ih =>
    refine ⟨by simp [chunksOfFive, ih.1], ?_⟩
    intro b hb
    rw [chunksOfFive] at hb
    rcases List.mem_cons.mp hb with hb | hb
    · subst hb
      simp [itemsPerBatch]
    · exact ih.2 b hb

/-- C8: the batcher partitions each harvested stub sequence into non-empty
groups of at most `itemsPerBatch` stubs whose in-order concatenation is
exactly the original sequence; the partition is computed by the harvesting
loop itself, before the detail and dispatch loops run. -/
theorem chunksOfFive_partition (xs : List ProductItem) :
    (chunksOfFive xs).flatten = xs ∧
      ∀ b ∈ chunksOfFive xs, b ≠ [] ∧ b.length ≤ itemsPerBatch :=
  chunksOfFive_props xs

/-- Six concrete stubs used to exercise the batcher. -/
def demoStubs : List ProductItem :=
  [⟨"1", "l1", "h1", .str ""⟩, ⟨"2", "l2", "h2", .str ""⟩, ⟨"3", "l3", "h3", .str ""⟩,
    ⟨"4", "l4", "h4", .str ""⟩, ⟨"5", "l5", "h5", .str ""⟩, ⟨"6", "l6", "h6", .str ""⟩]

/-- C8, witness: six stubs split into a full batch of five and a batch of
one, whose concatenation restores the input. -/
theorem chunksOfFive_partition_witness :
    (chunksOfFive demoStubs).flatten = demoStubs ∧
      ([⟨"6", "l6", "h6", .str ""⟩] : List ProductItem) ≠ [] ∧
        ([⟨"6", "l6", "h6", .str ""⟩] : List ProductItem).length ≤ itemsPerBatch :=
  ⟨(chunksOfFive_partition demoStubs).1,
    (chunksOfFive_partition demoStubs).2 [⟨"6", "l6", "h6", .str ""⟩] (by decide)⟩

/-! ## The frontier loop (lines 170–228)

The rendered outcome of visiting one listing URL is an oracle of the
traversal: `page.goto`/`awaitSplashUI` may throw (`navFail`), the pagination
links may be read and then `getProductItems` throw (`midFail`), or both
queries may succeed.  The pagination links carried here are the strings
`getPaginationLinks` returns after its same-host filter and `_pgn`
canonicalization. -/

/-- The outcome the rendering surface produces for one listing URL. -/
inductive PageOutcome where
  | navFail
  | midFail (links : List String)
  | success (links : List String) (items : List ProductItem)

/-- The mutable state of `crawlAndExtract`'s harvesting phase: the
`visitedUrls` set (as its insertion-ordered element list), the `toVisitUrls`
queue, and the accumulated `bathces` [sic]. -/
structure CrawlState where
  visitedUrls : List String
  toVisitUrls : List String
  bathces : List (List ProductItem)
deriving Repr

/-- One iteration of the `while` body (lines 192–228): shift the queue; skip
an already-visited URL; otherwise mark it visited, and on a successful
navigation push every pagination link not yet visited (the pending queue is
not consulted) and append the page's batches. -/
def crawlStep (world : String → PageOutcome) (s : CrawlState) : CrawlState :=
  match s.toVisitUrls with
  | [] => s
  | currentUrl :: rest =>
    if currentUrl ∈ s.visitedUrls then
      { s with toVisitUrls := rest }
    else
      let visited := s.visitedUrls ++ [currentUrl]
      match world currentUrl with
      | .navFail => { visitedUrls := visited, toVisitUrls := rest, bathces := s.bathces }
      | .midFail links =>
        { visitedUrls := visited,
          toVisitUrls := rest ++ links.filter (fun l => decide (l ∉ visited)),
          bathces := s.bathces }
      | .success links items =>
        { visitedUrls := visited,
          toVisitUrls := rest ++ links.filter (fun l => decide (l ∉ visited)),
          bathces := s.bathces ++ chunksOfFive items }

/-- The `while (toVisitUrls.length > 0 && visitedUrls.size < toPage)` loop,
with explicit fuel: every theorem below holds for every fuel value, hence at
every point of the execution and in particular at termination. -/
def crawlLoop (world : String → PageOutcome) (toPage : Nat) : Nat → CrawlState → CrawlState
  | 0, s => s
  | fuel + 1, s =>
    if s.toVisitUrls ≠ [] ∧ s.visitedUrls.length < toPage then
      crawlLoop world toPage fuel (crawlStep world s)
    else s

/-- The initial frontier URL (line 178):
``toVisitUrls = [`${startUrl}&_nkw=nike&_pgn=${fromPage}`]`` — note the
hardcoded `nike` literal where the caller's `search` value would belong. -/
def initialUrl (startUrl : String) (fromPage : Nat) : String :=
  startUrl ++ "&_nkw=nike&_pgn=" ++ toString fromPage

/-- The state on entry to the harvesting loop (lines 177–189). -/
def initState (startUrl : String) (fromPage : Nat) : CrawlState :=
  { visitedUrls := [], toVisitUrls := [initialUrl startUrl fromPage], bathces := [] }

theorem crawlStep_visited_le (world : String → PageOutcome) (s : CrawlState) :
    (crawlStep world s).visitedUrls.length ≤ s.visitedUrls.length + 1 := by
  rcases hs : s.toVisitUrls with _ | ⟨currentUrl, rest⟩
  · simp [crawlStep, hs]
  · by_cases hv : currentUrl ∈ s.visitedUrls
    · simp [crawlStep, hs, hv]
    · cases hw : world currentUrl <;> simp [crawlStep, hs, hv, hw]

theorem crawlLoop_visited_le (world : String → PageOutcome) (toPage fuel : Nat)
    (s : CrawlState) (h : s.visitedUrls.length ≤ toPage) :
    (crawlLoop world toPage fuel s).visitedUrls.length ≤ toPage := by
  induction fuel generalizing s with
  | zero => exact h
  | succ fuel ih =>
    rw [crawlLoop]
    split
    · next hcond =>
      refine ih _ ?_
      have hlt := hcond.2
      have := crawlStep_visited_le world s
      omega
    · exact h

/-- C2: for every oracle, every budget `toPage` and every point of the
execution, the `visitedUrls` set built by the frontier loop of
`crawlAndExtract` started from its initial state holds at most `toPage`
URLs — the loop stops dequeuing once `visitedUrls.size` reaches `toPage` or
the queue empties, however many pagination links were enqueued. -/
theorem visited_budget_le_toPage (world : String → PageOutcome)
    (toPage fuel : Nat) (startUrl : String) (fromPage : Nat) :
    (crawlLoop world toPage fuel (initState startUrl fromPage)).visitedUrls.length ≤ toPage :=
  crawlLoop_visited_le world toPage fuel _ (by simp [initState])

theorem crawlStep_visited_nodup (world : String → PageOutcome) (s : CrawlState)
    (h : s.visitedUrls.Nodup) : (crawlStep world s).visitedUrls.Nodup := by
  rcases hs : s.toVisitUrls with _ | ⟨currentUrl, rest⟩
  · simpa [crawlStep, hs] using h
  · by_cases hv : currentUrl ∈ s.visitedUrls
    · simpa [crawlStep, hs, hv] using h
    · cases hw : world currentUrl <;>
        simp [crawlStep, hs, hv, hw, List.nodup_append, h]

theorem crawlLoop_visited_nodup (world : String → PageOutcome) (toPage fuel : Nat)
    (s : CrawlState) (h : s.visitedUrls.Nodup) :
    (crawlLoop world toPage fuel s).visitedUrls.Nodup := by
  induction fuel generalizing s with
  | zero => exact h
  | succ fuel ih =>
    rw [crawlLoop]
    split
    · exact ih _ (crawlStep_visited_nodup world s h)
    · exact h

/-- C3, amended: throughout every crawl execution a URL enters the visited
set at most once — the dequeue re-checks `visitedUrls.has(currentUrl)` — but
the enqueue guard checks only the visited set, never the pending queue, so
the same unvisited URL can be pending twice; duplicates are discarded when
dequeued, not when enqueued. -/
theorem visitedUrls_nodup (world : String → PageOutcome)
    (toPage fuel : Nat) (startUrl : String) (fromPage : Nat) :
    (crawlLoop world toPage fuel (initState startUrl fromPage)).visitedUrls.Nodup :=
  crawlLoop_visited_nodup world toPage fuel _ (by simp [initState])

/-- An oracle whose single listing page advertises the same pagination link
twice (for instance a numbered link and a next-arrow with equal `href`). -/
def dupLinkWorld : String → PageOutcome := fun u =>
  if u = initialUrl "S" 1 then PageOutcome.success ["P", "P"] [] else PageOutcome.navFail

/-- C3, counterexample: after one iteration of the frontier loop on
`dupLinkWorld` the pending queue holds the same unvisited URL twice — the
claim that a link is enqueued only when neither visited nor already pending
fails on the code, which tests `visitedUrls` alone (lines 208–212). -/
theorem toVisitUrls_duplicate_cex :
    (crawlLoop dupLinkWorld 2 1 (initState "S" 1)).toVisitUrls = ["P", "P"] ∧
      ¬ (crawlLoop dupLinkWorld 2 1 (initState "S" 1)).toVisitUrls.Nodup := by
  constructor
  · rfl
  · decide

/-! ## The crawl query and the initial URL (lines 170–178) -/

/-- `CrawlQuery` as destructured at line 171 (`search` arrives as the raw
`search` query-string value, a string). -/
structure CrawlQuery where
  search : String
  fromPage : Nat
  toPage : Nat

/-- The guard and frontier seeding of `crawlAndExtract` (lines 173–178):
`if (!search) return []` — an empty `search` short-circuits (`none`);
otherwise the single seeded URL is built from `startUrl` and `fromPage`
with the literal `nike` in the `_nkw` parameter, ignoring `search`. -/
def crawlInitialUrl (startUrl : String) (query : CrawlQuery) : Option String :=
  if query.search = "" then none else some (initialUrl startUrl query.fromPage)

/-- C9: the initial frontier URL hardcodes `_nkw=nike`; any two crawl
queries with non-empty `search` values and equal `fromPage` seed the
identical URL, so the `search` value has no influence on which URL is
requested. -/
theorem initialUrl_ignores_search (startUrl : String) (q1 q2 : CrawlQuery)
    (h1 : q1.search ≠ "") (h2 : q2.search ≠ "") (hp : q1.fromPage = q2.fromPage) :
    crawlInitialUrl startUrl q1 = crawlInitialUrl startUrl q2 ∧
      crawlInitialUrl startUrl q1
        = some (startUrl ++ "&_nkw=nike&_pgn=" ++ toString q1.fromPage) := by
  simp [crawlInitialUrl, h1, h2, hp, initialUrl]

/-- C9, witness: searching for `shoes` and searching for `laptop` from the
same `fromPage` request the same hardcoded URL. -/
theorem initialUrl_ignores_search_witness :
    crawlInitialUrl "S" ⟨"shoes", 3, 4⟩ = crawlInitialUrl "S" ⟨"laptop", 3, 9⟩ ∧
      crawlInitialUrl "S" ⟨"shoes", 3, 4⟩ = some ("S" ++ "&_nkw=nike&_pgn=" ++ toString 3) :=
  initialUrl_ignores_search "S" ⟨"shoes", 3, 4⟩ ⟨"laptop", 3, 9⟩ (by decide) (by decide) rfl

/-! ## The detail-fetch loop (lines 230–263)

Navigating to a stub's `detailLink` and querying
`getProductDescription` is an oracle from the link to either the queried
region list (`string[]`) or a failure (`page.goto`/`awaitSplashUI`/the
query throwing).  The loop reuses one page sequentially; the harvested
content of a link is the oracle's value for it. -/

/-- The body of the detail loop for one stub (lines 242–261): on success
the `string[]` returned by `getProductDescription` is assigned to
`batch[j].productDetailHtml`; on failure the error is caught, logged, and
the stub is left unchanged (`continue`). -/
def enrichItem (detailWorld : String → Option (List String)) (batchItem : ProductItem) :
    ProductItem :=
  match detailWorld batchItem.detailLink with
  | some regions => { batchItem with productDetailHtml := DetailHtml.arr regions }
  | none => batchItem

/-- The full detail loop (lines 230–263): every stub of every batch is
enriched in place; the `if (!batch || batch.length === 0) continue` and
`if (!batchItem) continue` guards are no-ops on the empty lists they skip. -/
def enrichBatches (detailWorld : String → Option (List String))
    (bs : List (List ProductItem)) : List (List ProductItem) :=
  bs.map (fun batch => batch.map (enrichItem detailWorld))

/-- JavaScript string interpolation of a `productDetailHtml` value:
`${""}` is `""` and `${array}` joins the elements with `,`. -/
def renderDetailHtml : DetailHtml → String
  | .str s => s
  | .arr regions => String.intercalate "," regions

/-- The per-stub fragment of the composite batch document (lines 277–287),
with the template literal's exact whitespace. -/
def itemFragment (batchItem : ProductItem) : String :=
  "\n        <div class=\"product_" ++ batchItem.productId ++
    "\">\n          <ul class=\"product_item\">\n            " ++
    batchItem.productItemHtml ++
    "\n          <ul>\n          <div class=\"product_item_detail\">\n            " ++
    renderDetailHtml batchItem.productDetailHtml ++
    "\n          </div>\n        </div>"

/-- `Array.prototype.join("")` over the fragment list. -/
def strConcat : List String → String
  | [] => ""
  | s :: rest => s ++ strConcat rest

/-- The composite document sent to `extractProduct` for one batch
(lines 288–291). -/
def buildBatchContent (batch : List ProductItem) : String :=
  "\n    <div class=\"product_list\">\n      " ++
    strConcat (batch.map itemFragment) ++ "\n    <div>"

/-- The dispatch loop (lines 269–296): one `extractProduct` call per batch,
in order, skipping the (never-occurring) empty batches. -/
def extractionCalls (bs : List (List ProductItem)) : List String :=
  bs.filterMap (fun batch => if batch.isEmpty then none else some (buildBatchContent batch))

theorem strConcat_append (l1 l2 : List String) :
    strConcat (l1 ++ l2) = strConcat l1 ++ strConcat l2 := by
  induction l1 with
  | nil => simp [strConcat]
  | cons s rest ih => simp [strConcat, ih, String.append_assoc]

/-- C6: a failing detail fetch is caught and isolated — the failing stub is
left exactly as harvested, the loop touches every stub independently (a
stub's enriched value depends only on its own link, so changing the oracle
at the failing link alone leaves every other stub's outcome unchanged), the
batch keeps its length, and the failing stub still appears in its batch's
composite document, with an empty detail fragment when it carried the
harvest-time `""`. -/
theorem detailFetch_failure_isolated (detailWorld detailWorldB : String → Option (List String))
    (batch : List ProductItem) (x : ProductItem) (hx : x ∈ batch)
    (hfail : detailWorld x.detailLink = none)
    (hagree : ∀ l, l ≠ x.detailLink → detailWorldB l = detailWorld l) :
    enrichItem detailWorld x = x ∧
      (batch.map (enrichItem detailWorld)).length = batch.length ∧
      (∀ y ∈ batch, y.detailLink ≠ x.detailLink →
        enrichItem detailWorld y = enrichItem detailWorldB y) ∧
      (x.productDetailHtml = DetailHtml.str "" →
        renderDetailHtml x.productDetailHtml = "" ∧
          ∃ pre post,
            buildBatchContent (batch.map (enrichItem detailWorld))
              = pre ++ (itemFragment x ++ post)) := by
  have hxid : enrichItem detailWorld x = x := by
    simp [enrichItem, hfail]
  refine ⟨hxid, by simp, ?_, ?_⟩
  · intro y _ hy
    simp [enrichItem, hagree y.detailLink hy]
  · intro hempty
    refine ⟨by simp [renderDetailHtml, hempty], ?_⟩
    obtain ⟨l1, l2, hsplit⟩ := List.append_of_mem hx
    subst hsplit
    refine ⟨"\n    <div class=\"product_list\">\n      " ++
      strConcat (l1.map (enrichItem detailWorld) |>.map itemFragment),
      strConcat (l2.map (enrichItem detailWorld) |>.map itemFragment) ++ "\n    <div>", ?_⟩
    simp only [buildBatchContent, List.map_append, List.map_cons, hxid, strConcat_append,
      strConcat]
    simp [String.append_assoc]

/-- A concrete detail oracle failing on link `d1` and succeeding on `d2`. -/
def demoDetailWorld : String → Option (List String) := fun l =>
  if l = "d2" then some ["<div>desc2</div>"] else none

/-- C6, witness: in a two-stub batch whose first detail navigation fails,
the first stub survives unchanged and still contributes its fragment, with
an empty detail region, to the composite document. -/
theorem detailFetch_failure_isolated_witness :
    enrichItem demoDetailWorld ⟨"p1", "d1", "<li>1</li>", .str ""⟩
        = ⟨"p1", "d1", "<li>1</li>", .str ""⟩ ∧
      (([⟨"p1", "d1", "<li>1</li>", .str ""⟩, ⟨"p2", "d2", "<li>2</li>", .str ""⟩] :
          List ProductItem).map (enrichItem demoDetailWorld)).length
        = ([⟨"p1", "d1", "<li>1</li>", .str ""⟩, ⟨"p2", "d2", "<li>2</li>", .str ""⟩] :
            List ProductItem).length ∧
      (∀ y ∈ ([⟨"p1", "d1", "<li>1</li>", .str ""⟩, ⟨"p2", "d2", "<li>2</li>", .str ""⟩] :
          List ProductItem), y.detailLink ≠ "d1" →
        enrichItem demoDetailWorld y = enrichItem demoDetailWorld y) ∧
      (DetailHtml.str "" = DetailHtml.str "" →
        renderDetailHtml (DetailHtml.str "") = "" ∧
          ∃ pre post,
            buildBatchContent
                (([⟨"p1", "d1", "<li>1</li>", .str ""⟩, ⟨"p2", "d2", "<li>2</li>", .str ""⟩] :
                  List ProductItem).map (enrichItem demoDetailWorld))
              = pre ++ (itemFragment ⟨"p1", "d1", "<li>1</li>", .str ""⟩ ++ post)) :=
  detailFetch_failure_isolated demoDetailWorld demoDetailWorld
    [⟨"p1", "d1", "<li>1</li>", .str ""⟩, ⟨"p2", "d2", "<li>2</li>", .str ""⟩]
    ⟨"p1", "d1", "<li>1</li>", .str ""⟩ (by decide) (by decide) (fun _ _ => rfl)

/-! ## Batch lifecycle (C7) -/

theorem chunksOfFive_ne_nil (xs : List ProductItem) (b : List ProductItem)
    (hb : b ∈ chunksOfFive xs) : b ≠ [] :=
  ((chunksOfFive_props xs).2 b hb).1

theorem crawlStep_bathces_ne_nil (world : String → PageOutcome) (s : CrawlState)
    (h : ∀ b ∈ s.bathces, b ≠ []) : ∀ b ∈ (crawlStep world s).bathces, b ≠ [] := by
  rcases hs : s.toVisitUrls with _ | ⟨currentUrl, rest⟩
  · simpa [crawlStep, hs] using h
  · by_cases hv : currentUrl ∈ s.visitedUrls
    · simpa [crawlStep, hs, hv] using h
    · cases hw : world currentUrl with
      | navFail => simpa [crawlStep, hs, hv, hw] using h
      | midFail links => simpa [crawlStep, hs, hv, hw] using h
      | success links items =>
        intro b hb
        simp [crawlStep, hs, hv, hw] at hb
        rcases hb with hb | hb
        · exact h b hb
        · exact chunksOfFive_ne_nil items b hb

theorem crawlLoop_bathces_ne_nil (world : String → PageOutcome) (toPage fuel : Nat)
    (s : CrawlState) (h : ∀ b ∈ s.bathces, b ≠ []) :
    ∀ b ∈ (crawlLoop world toPage fuel s).bathces, b ≠ [] := by
  induction fuel generalizing s with
  | zero => exact h
  | succ fuel ih =>
    rw [crawlLoop]
    split
    · exact ih _ (crawlStep_bathces_ne_nil world s h)
    · exact h

theorem enrichBatches_sections (detailWorld : String → Option (List String))
    (bs : List (List ProductItem)) (h : ∀ b ∈ bs, b ≠ []) :
    (enrichBatches detailWorld bs).length = bs.length ∧
      ∀ b ∈ enrichBatches detailWorld bs, b ≠ [] := by
  refine ⟨by simp [enrichBatches], ?_⟩
  intro b hb
  simp only [enrichBatches, List.mem_map] at hb
  obtain ⟨b0, hb0, rfl⟩ := hb
  have := h b0 hb0
  simpa using this

theorem extractionCalls_of_ne_nil (bs : List (List ProductItem))
    (h : ∀ b ∈ bs, b ≠ []) : extractionCalls bs = bs.map buildBatchContent := by
  induction bs with
  | nil => rfl
  | cons b rest ih =>
    have hb : b ≠ [] := h b (List.mem_cons_self _ _)
    have hrest : ∀ b ∈ rest, b ≠ [] := fun b hbm => h b (List.mem_cons_of_mem _ hbm)
    simp [extractionCalls, List.isEmpty_iff, hb, ih hrest] at *
    simp [extractionCalls, List.filterMap_cons, List.isEmpty_iff, hb, ih hrest]

/-- C7, amended: batches are created incrementally during frontier draining
— each visited listing page's stubs are partitioned and appended by the
harvesting loop itself — and the detail loop then mutates each contained
stub's `productDetailHtml` in place; only after that enrichment is the
batch list fixed, and the extraction dispatcher then consumes each
(always non-empty) batch exactly once, issuing one call per batch in
order. -/
theorem batches_dispatched_once_after_enrichment (world : String → PageOutcome)
    (detailWorld : String → Option (List String)) (toPage fuel : Nat)
    (startUrl : String) (fromPage : Nat) :
    extractionCalls
        (enrichBatches detailWorld
          (crawlLoop world toPage fuel (initState startUrl fromPage)).bathces)
      = (enrichBatches detailWorld
          (crawlLoop world toPage fuel (initState startUrl fromPage)).bathces).map
            buildBatchContent ∧
      (enrichBatches detailWorld
          (crawlLoop world toPage fuel (initState startUrl fromPage)).bathces).length
        = (crawlLoop world toPage fuel (initState startUrl fromPage)).bathces.length := by
  have hne : ∀ b ∈ (crawlLoop world toPage fuel (initState startUrl fromPage)).bathces,
      b ≠ [] :=
    crawlLoop_bathces_ne_nil world toPage fuel _ (by simp [initState])
  have hs := enrichBatches_sections detailWorld _ hne
  exact ⟨extractionCalls_of_ne_nil _ hs.2, hs.1⟩

/-- An oracle whose single listing page yields one stub and no pagination
links. -/
def oneStubWorld : String → PageOutcome := fun u =>
  if u = initialUrl "S" 1 then
    PageOutcome.success [] [⟨"p1", "d1", "<li>1</li>", .str ""⟩]
  else PageOutcome.navFail

/-- C7, counterexample: with `oneStubWorld`, the frontier loop has already
created the batch `[[p1-stub]]` when draining finishes, and the detail loop
(oracle `demoDetailWorld` extended at `d1`) then changes that batch's stub
in place — so batches are not immutable from creation: the detail fetcher
mutates `batch[j].productDetailHtml` (line 252) after the batch was pushed
(line 219). -/
theorem batch_mutated_after_creation_cex :
    (crawlLoop oneStubWorld 1 2 (initState "S" 1)).bathces
        = [[⟨"p1", "d1", "<li>1</li>", .str ""⟩]] ∧
      enrichBatches (fun l => if l = "d1" then some ["<div>desc1</div>"] else none)
          (crawlLoop oneStubWorld 1 2 (initState "S" 1)).bathces
        ≠ (crawlLoop oneStubWorld 1 2 (initState "S" 1)).bathces := by
  constructor
  · rfl
  · decide

/-! ## Pagination-link canonicalization (lines 99–107)

`getPaginationLinks` maps each same-host link through
`const url = new URL(link); const params = url.searchParams;
 const pgnValue = params.get("_pgn"); params.delete("_pgn");
 params.append("_pgn", pgnValue); return url.toString()`.
A parsed URL is modelled as the part before the query string plus the
ordered query-parameter list; percent-encoding is left out (the values used
in the claims are plain), and `toString` re-serializes the parameters in
order, as `URLSearchParams` does. -/

/-- A parsed URL: everything before the query string, and the ordered list
of query parameters. -/
structure JsUrl where
  base : String
  params : List (String × String)
deriving DecidableEq, Repr

/-- `params.get(k)`: the first value under `k`, or JavaScript `null`
(`Option.none`). -/
def paramsGet (k : String) (ps : List (String × String)) : Option String :=
  (ps.find? (fun p => p.1 == k)).map Prod.snd

/-- `params.delete("_pgn")`: removes every `_pgn` entry. -/
def removePgn (ps : List (String × String)) : List (String × String) :=
  ps.filter (fun p => p.1 != "_pgn")

/-- `params.append("_pgn", pgnValue)` stringifies its value: appending the
JavaScript `null` produced by `params.get` on a missing key yields the
literal string `"null"`. -/
def jsParamString : Option String → String
  | some s => s
  | none => "null"

/-- The canonicalization applied to each retained link (lines 100–106):
read the first `_pgn` value, delete all `_pgn` entries, re-append `_pgn`
at the end. -/
def normalizePgn (u : JsUrl) : JsUrl :=
  { base := u.base,
    params := removePgn u.params ++ [("_pgn", jsParamString (paramsGet "_pgn" u.params))] }

/-- `URLSearchParams.toString()` (sans percent-encoding): `k=v` pairs
joined by `&`. -/
def queryString : List (String × String) → String
  | [] => ""
  | p :: rest =>
    p.1 ++ "=" ++ p.2 ++ (if rest.isEmpty then "" else "&" ++ queryString rest)

/-- `url.toString()`: the base, plus `?` and the serialized parameters when
any are present. -/
def urlToString (u : JsUrl) : String :=
  u.base ++ (if u.params.isEmpty then "" else "?" ++ queryString u.params)

theorem removePgn_find?_eq_none (ps : List (String × String)) :
    (removePgn ps).find? (fun p => p.1 == "_pgn") = none := by
  rw [List.find?_eq_none]
  intro p hp
  have := List.of_mem_filter hp
  simpa using this

theorem paramsGet_normalized (ps : List (String × String)) (v : String) :
    paramsGet "_pgn" (removePgn ps ++ [("_pgn", v)]) = some v := by
  simp [paramsGet, List.find?_append, removePgn_find?_eq_none]

theorem removePgn_normalized (ps : List (String × String)) (v : String) :
    removePgn (removePgn ps ++ [("_pgn", v)]) = removePgn ps := by
  simp [removePgn, List.filter_append, List.filter_filter]

theorem normalizePgn_idem (u : JsUrl) : normalizePgn (normalizePgn u) = normalizePgn u := by
  simp [normalizePgn, paramsGet_normalized, removePgn_normalized, jsParamString]

/-- C4, counterexample: two links that differ only in the insertion order
of their (non-`_pgn`) query parameters do not normalize to the same string
— the canonicalization only moves `_pgn` to the end and leaves every other
parameter in its original relative order. -/
theorem normalizePgn_param_order_cex :
    urlToString (normalizePgn ⟨"https://www.ebay.com/sch/i.html", [("a", "1"), ("b", "2")]⟩)
      ≠ urlToString (normalizePgn ⟨"https://www.ebay.com/sch/i.html", [("b", "2"), ("a", "1")]⟩) := by
  decide

/-- C4, amended: the canonicalization is idempotent — normalizing an
already-normalized link reproduces the identical URL, hence the identical
string — and it is insensitive to where `_pgn` was inserted: two links with
the same base, the same sequence of non-`_pgn` parameters and the same
first `_pgn` value normalize to the same string.  (Links differing in the
order of other parameters need not, per the counterexample.) -/
theorem normalizePgn_idem_and_pgn_position (u v : JsUrl)
    (hbase : u.base = v.base)
    (hrest : removePgn u.params = removePgn v.params)
    (hpgn : paramsGet "_pgn" u.params = paramsGet "_pgn" v.params) :
    normalizePgn (normalizePgn u) = normalizePgn u ∧
      urlToString (normalizePgn (normalizePgn u)) = urlToString (normalizePgn u) ∧
      urlToString (normalizePgn u) = urlToString (normalizePgn v) := by
  refine ⟨normalizePgn_idem u, by rw [normalizePgn_idem u], ?_⟩
  simp [normalizePgn, urlToString, hbase, hrest, hpgn]

/-- C4, witness: `?_pgn=2&a=1` and `?a=1&_pgn=2` differ only in where
`_pgn` sits and normalize to the identical string, which is itself a fixed
point of the normalization. -/
theorem normalizePgn_idem_and_pgn_position_witness :
    normalizePgn (normalizePgn ⟨"B", [("_pgn", "2"), ("a", "1")]⟩)
        = normalizePgn ⟨"B", [("_pgn", "2"), ("a", "1")]⟩ ∧
      urlToString (normalizePgn (normalizePgn ⟨"B", [("_pgn", "2"), ("a", "1")]⟩))
        = urlToString (normalizePgn ⟨"B", [("_pgn", "2"), ("a", "1")]⟩) ∧
      urlToString (normalizePgn ⟨"B", [("_pgn", "2"), ("a", "1")]⟩)
        = urlToString (normalizePgn ⟨"B", [("a", "1"), ("_pgn", "2")]⟩) :=
  normalizePgn_idem_and_pgn_position ⟨"B", [("_pgn", "2"), ("a", "1")]⟩
    ⟨"B", [("a", "1"), ("_pgn", "2")]⟩ rfl (by decide) (by decide)

theorem string_append_ne_self (s t : String) (h : t.length ≠ 0) : s ++ t ≠ s := by
  intro hc
  have hlen := congrArg String.length hc
  rw [String.length_append] at hlen
  omega

theorem queryString_cons_cons (p r : String × String) (rest : List (String × String)) :
    queryString (p :: r :: rest) = p.1 ++ "=" ++ p.2 ++ ("&" ++ queryString (r :: rest)) := by
  simp [queryString, String.append_assoc]

theorem queryString_cons_append (p : String × String) (rest : List (String × String))
    (q : String × String) :
    queryString (p :: (rest ++ [q])) = queryString (p :: rest) ++ ("&" ++ queryString [q]) := by
  induction rest generalizing p with
  | nil => simp [queryString, String.append_assoc]
  | cons r rs ih =>
    rw [List.cons_append, queryString_cons_cons, ih r, queryString_cons_cons]
    simp [String.append_assoc]

/-- C10: for a link carrying no `_pgn` query parameter, the
canonicalization appends the literal pair `_pgn=null` (the absent parameter
reads as JavaScript `null`, stringified on re-append), so the returned
canonical URL string differs from the input's serialization — and in
particular from any `_pgn`-less form. -/
theorem missing_pgn_appends_null (u : JsUrl)
    (h : paramsGet "_pgn" u.params = none) :
    normalizePgn u = ⟨u.base, u.params ++ [("_pgn", "null")]⟩ ∧
      urlToString (normalizePgn u) ≠ urlToString u := by
  have hfind : u.params.find? (fun p => p.1 == "_pgn") = none := by
    simpa [paramsGet] using h
  have hclean : removePgn u.params = u.params := by
    rw [removePgn, List.filter_eq_self]
    intro p hp
    have := List.find?_eq_none.mp hfind p hp
    simpa using this
  have hnorm : normalizePgn u = ⟨u.base, u.params ++ [("_pgn", "null")]⟩ := by
    simp [normalizePgn, h, jsParamString, hclean]
  refine ⟨hnorm, ?_⟩
  rw [hnorm]
  have hq1 : (queryString [("_pgn", "null")]).length = 9 := rfl
  rcases hps : u.params with _ | ⟨p, rest⟩
  · have e1 : urlToString ⟨u.base, ([] : List (String × String)) ++ [("_pgn", "null")]⟩
        = u.base ++ ("?" ++ queryString [("_pgn", "null")]) := by
      simp [urlToString]
    have e2 : urlToString u = u.base := by
      simp [urlToString, hps]
    rw [e1, e2]
    apply string_append_ne_self
    rw [String.length_append, hq1]
    omega
  · have e1 : urlToString ⟨u.base, (p :: rest) ++ [("_pgn", "null")]⟩
        = (u.base ++ ("?" ++ queryString (p :: rest))) ++ ("&" ++ queryString [("_pgn", "null")]) := by
      simp [urlToString, queryString_cons_append, String.append_assoc]
    have e2 : urlToString u = u.base ++ ("?" ++ queryString (p :: rest)) := by
      simp [urlToString, hps]
    rw [e1, e2]
    apply string_append_ne_self
    rw [String.length_append, hq1]
    omega

/-- C10, witness: `B?a=1` canonicalizes to `B?a=1&_pgn=null`, a different
string. -/
theorem missing_pgn_appends_null_witness :
    normalizePgn ⟨"B", [("a", "1")]⟩ = ⟨"B", [("a", "1"), ("_pgn", "null")]⟩ ∧
      urlToString (normalizePgn ⟨"B", [("a", "1")]⟩) ≠ urlToString ⟨"B", [("a", "1")]⟩ :=
  missing_pgn_appends_null ⟨"B", [("a", "1")]⟩ (by decide)

/-! ## Rate limiter (lines 339–377)

`simpleRateLimitMiddleware` keeps `requestCounts: Map<ip, count>`; on the
first request of a window it schedules `setTimeout(() => delete, windowMs)`.
The model follows one client key (the per-ip projection of the map): the
state is `none` when the key has no entry, or `some (count, expiry)` where
`expiry` is the absolute time the pending one-shot timer deletes the entry.
A timer due at or before an arriving request fires first (the deletion is
applied lazily at the next arrival), which is when its effect is next
observable. -/

/-- `windowMs = 60 * 1000` (line 341). -/
def windowMs : Nat := 60 * 1000

/-- `maxRequests = 5` (line 342). -/
def maxRequests : Nat := 5

/-- The outcome of one request: `admitted` means `await next()` ran the
pipeline; `rejected429` means the middleware wrote the 429
"Too many requests" response and returned without invoking the pipeline. -/
inductive RLOutcome where
  | admitted
  | rejected429
deriving DecidableEq, Repr

/-- The `middleware` body (lines 349–374) for one request from the key at
absolute time `t`: fire a due timer (deleting the entry), read
`requestCounts.get(ip) || 0`, reject with 429 when `count >= maxRequests`,
otherwise store `count + 1` and, on `count === 0`, schedule the one-shot
reset timer `windowMs` from now. -/
def rlStep (s : Option (Nat × Nat)) (t : Nat) : RLOutcome × Option (Nat × Nat) :=
  let cur := match s with
    | some entry => if entry.2 ≤ t then none else some entry
    | none => none
  match cur with
  | none => (RLOutcome.admitted, some (1, t + windowMs))
  | some entry =>
    if maxRequests ≤ entry.1 then (RLOutcome.rejected429, some entry)
    else (RLOutcome.admitted, some (entry.1 + 1, entry.2))

/-- Processes a time-ordered list of requests from one key, collecting each
request's outcome and the final per-key state. -/
def rlRun : List Nat → Option (Nat × Nat) → List RLOutcome × Option (Nat × Nat)
  | [], s => ([], s)
  | t :: rest, s => ((rlStep s t).1 :: (rlRun rest (rlStep s t).2).1, (rlRun rest (rlStep s t).2).2)

theorem rlRun_append (l1 l2 : List Nat) (s : Option (Nat × Nat)) :
    rlRun (l1 ++ l2) s
      = ((rlRun l1 s).1 ++ (rlRun l2 (rlRun l1 s).2).1, (rlRun l2 (rlRun l1 s).2).2) := by
  induction l1 generalizing s with
  | nil => simp [rlRun]
  | cons t rest ih => simp [rlRun, ih]

theorem rlRun_in_window (ts : List Nat) (c exp : Nat) (hc : 1 ≤ c) (hc5 : c ≤ maxRequests)
    (hin : ∀ t ∈ ts, t < exp) :
    rlRun ts (some (c, exp))
      = (List.replicate (min ts.length (maxRequests - c)) RLOutcome.admitted ++
          List.replicate (ts.length - (maxRequests - c)) RLOutcome.rejected429,
        some (min (c + ts.length) maxRequests, exp)) := by
  induction ts generalizing c with
  | nil =>
    have : min (c + 0) maxRequests = c := by omega
    simp [rlRun, this, hc5]
  | cons t rest ih =>
    have htlt : t < exp := hin t (List.mem_cons_self _ _)
    have hrest : ∀ t ∈ rest, t < exp := fun t ht => hin t (List.mem_cons_of_mem _ ht)
    by_cases hfull : maxRequests ≤ c
    · have hceq : c = maxRequests := le_antisymm hc5 hfull
      have hstep : rlStep (some (c, exp)) t = (RLOutcome.rejected429, some (c, exp)) := by
        simp [rlStep, Nat.not_le.mpr htlt, hfull]
      have h1 : min (rest.length + 1) (maxRequests - c) = 0 := by omega
      have h2 : min rest.length (maxRequests - c) = 0 := by omega
      have h3 : (rest.length + 1) - (maxRequests - c) = rest.length - (maxRequests - c) + 1 := by
        omega
      have h4 : min (c + (rest.length + 1)) maxRequests = maxRequests := by omega
      have h5 : min (c + rest.length) maxRequests = maxRequests := by omega
      rw [rlRun]
      simp only [hstep]
      rw [ih c hc hc5 hrest]
      simp [h1, h2, h3, h4, h5, hceq, List.replicate_succ]
    · have hlt : c < maxRequests := Nat.not_le.mp hfull
      have hstep : rlStep (some (c, exp)) t = (RLOutcome.admitted, some (c + 1, exp)) := by
        simp [rlStep, Nat.not_le.mpr htlt, hfull]
      have h1 : min (rest.length + 1) (maxRequests - c)
          = min rest.length (maxRequests - (c + 1)) + 1 := by omega
      have h2 : (rest.length + 1) - (maxRequests - c)
          = rest.length - (maxRequests - (c + 1)) := by omega
      have h3 : min (c + (rest.length + 1)) maxRequests
          = min ((c + 1) + rest.length) maxRequests := by omega
      rw [rlRun]
      simp only [hstep]
      rw [ih (c + 1) (by omega) (by omega) hrest]
      simp [h1, h2, h3, List.replicate_succ]

/-- C5: for a single client key with `maxRequests = 5` and
`windowMs = 60000`: of the requests arriving before the expiry of the
window opened by the first request (at `t1`), the first five are admitted
to the pipeline and every further one is rejected with the 429 outcome
without invoking the pipeline; a request arriving once `windowMs` has
elapsed since `t1` finds the key's entry deleted by the one-shot timer and
is admitted with a fresh count of 1. -/
theorem rateLimiter_window_behavior (t1 : Nat) (rest : List Nat) (tLate : Nat)
    (hin : ∀ t ∈ rest, t < t1 + windowMs) (hafter : t1 + windowMs ≤ tLate) :
    (rlRun (t1 :: (rest ++ [tLate])) none).1
        = RLOutcome.admitted ::
            (List.replicate (min rest.length (maxRequests - 1)) RLOutcome.admitted ++
              List.replicate (rest.length - (maxRequests - 1)) RLOutcome.rejected429 ++
              [RLOutcome.admitted]) ∧
      (rlRun (t1 :: (rest ++ [tLate])) none).2 = some (1, tLate + windowMs) := by
  have hstep1 : rlStep none t1 = (RLOutcome.admitted, some (1, t1 + windowMs)) := rfl
  have hwin := rlRun_in_window rest 1 (t1 + windowMs) (by omega) (by simp [maxRequests]) hin
  have hlate : rlStep (some (min (1 + rest.length) maxRequests, t1 + windowMs)) tLate
      = (RLOutcome.admitted, some (1, tLate + windowMs)) := by
    simp [rlStep, hafter]
  rw [rlRun]
  simp only [hstep1]
  rw [rlRun_append, hwin]
  simp [rlRun, hlate]

/-- C5, witness: six requests at seconds 0–5 of one minute and a seventh at
the window boundary: the first five are admitted, the sixth is rejected
with 429, and the late request is admitted with a fresh count of 1. -/
theorem rateLimiter_window_behavior_witness :
    (rlRun (0 :: ([10000, 20000, 30000, 40000, 50000] ++ [60000])) none).1
        = RLOutcome.admitted ::
            (List.replicate (min ([10000, 20000, 30000, 40000, 50000] : List Nat).length
                (maxRequests - 1)) RLOutcome.admitted ++
              List.replicate (([10000, 20000, 30000, 40000, 50000] : List Nat).length
                - (maxRequests - 1)) RLOutcome.rejected429 ++
              [RLOutcome.admitted]) ∧
      (rlRun (0 :: ([10000, 20000, 30000, 40000, 50000] ++ [60000])) none).2
        = some (1, 60000 + windowMs) :=
  rateLimiter_window_behavior 0 [10000, 20000, 30000, 40000, 50000] 60000
    (by decide) (by decide)

end CrawlCrawl
